import Mathlib

/-!
Verification of the Zews consultant bot core against its specification.

The development shallowly embeds the two algorithmic components of the
repository:

* the availability computation
  (`GoogleCalendarIntegration.get_available_slots` in
  `src/consultant/google_calendar_integration.py`), and
* the conversation state machine
  (`ConsultantBot.process_message` and
  `ConsultantBot._check_if_slot_selected` in
  `src/consultant/consultant_bot.py`).

Modelling conventions:

* instants are natural numbers counting seconds from an arbitrary epoch
  placed at a local midnight, so a calendar day is the quotient by 86400
  (the Python code manipulates naive `datetime` values the same way:
  `replace(hour=0, ...)` truncates to midnight, `date()` identifies the
  day; the sub-second `microsecond` component is abstracted away);
* external collaborators (the OpenAI classifier and reply generator, the
  Google calendar event list and meeting creation) are inputs to the
  state-transition function: each collaborator wrapper in the source
  catches its own exceptions and returns a degraded value
  (`detect_meeting_intent` -> False, `get_available_slots` -> [],
  `create_meeting` -> None, `get_response` -> a static apology string),
  so a turn is a pure function of the message, the session context and
  the values those calls return;
* the observable actions of one turn (transcript appends, collaborator
  calls, outgoing Telegram sends) are recorded in an event trace so that
  ordering properties can be stated.
-/

namespace Zews

/-! ## Time arithmetic -/

/-- Seconds in a calendar day. -/
def secPerDay : Nat := 86400

/-- Offset of the working-hours start (09:00) from midnight, in seconds. -/
def workStartOfs : Nat := 9 * 3600

/-- Offset of the working-hours end (18:00) from midnight, in seconds. -/
def workEndOfs : Nat := 18 * 3600

/-- The grid step between candidate slots: 30 minutes, in seconds. -/
def stepSec : Nat := 1800

/-- Calendar day of an instant (`start_dt.date()` in the source). -/
def dateOf (t : Nat) : Nat := t / secPerDay

/-- Models `now.replace(minute=(now.minute // 30) * 30)` from
`get_available_slots`: the minute-of-hour is floored to a multiple of 30
while the hour and the seconds are kept, i.e. the instant moves back by
`minute mod 30` minutes. -/
def roundDown30 (t : Nat) : Nat := t - 60 * (t / 60 % 30)

/-! ## Busy intervals and slots -/

/-- One busy interval `(start_dt, end_dt)` taken from a calendar event.
`stop` is the end instant of the interval (`end` is a Lean keyword). -/
structure Iv where
  start : Nat
  stop : Nat
deriving DecidableEq, Repr

/-- Two-digit decimal rendering used by the time formatter. -/
def pad2 (n : Nat) : String :=
  if n < 10 then "0" ++ toString n else toString n

/-- Display string of a slot start, modelling
`strftime("%d.%m.%Y %H:%M")`: the civil-date part is abstracted to the
day index (the embedding has no calendar epoch), the time part is the
hour and minute within the day. -/
def fmtTime (t : Nat) : String :=
  toString (t / secPerDay) ++ " " ++ pad2 (t % secPerDay / 3600) ++ ":" ++
    pad2 (t % 3600 / 60)

/-- One offered slot: the dictionary
`{"start": ..., "end": ..., "start_str": ...}` built by
`get_available_slots`.  `endTime` is the `"end"` entry. -/
structure SlotR where
  start : Nat
  endTime : Nat
  startStr : String
deriving DecidableEq, Repr

/-! ## The availability sweep (`get_available_slots`, lines 148-243) -/

/-- The busy intervals of day `d`: the source groups events into the
dictionary `busy_times` keyed by the *start* date of each event,
appending in event order, which is the order-preserving filter. -/
def busyOn (ev : List Iv) (d : Nat) : List Iv :=
  ev.filter (fun b => dateOf b.start == d)

/-- Models `day_busy_times.sort(key=lambda x: x[0])`: stable sort by
interval start. -/
def sortBusy (l : List Iv) : List Iv :=
  l.insertionSort (fun a b => a.start ≤ b.start)

/-- Fuel-indexed form of the inner emission loop; the fuel only bounds
the number of iterations (each iteration moves `s` up by `stepSec`, so
`lim + stepSec - s` iterations always suffice) and is fixed by
`emitFrom` below.  `emitFrom_spec` proves the loop equation exactly. -/
def emitFromAux : Nat → Nat → Nat → Nat → List Nat
  | 0, _, _, _ => []
  | fuel + 1, dur, lim, s =>
    if s + dur ≤ lim then s :: emitFromAux fuel dur lim (s + stepSec) else []

/-- The inner emission loop
`while current_slot + duration <= limit: append; current_slot += 30min`:
slot starts from `s` on the 30-minute grid whose slot of length `dur`
seconds still fits before `lim`. -/
def emitFrom (dur lim s : Nat) : List Nat :=
  emitFromAux (lim + stepSec - s) dur lim s

/-- Unfolding equation of `emitFromAux` at exhausted fuel. -/
theorem emitFromAux_zero (dur lim s : Nat) : emitFromAux 0 dur lim s = [] := rfl

/-- Unfolding equation of `emitFromAux` at positive fuel. -/
theorem emitFromAux_succ (f dur lim s : Nat) :
    emitFromAux (f + 1) dur lim s =
      if s + dur ≤ lim then s :: emitFromAux f dur lim (s + stepSec) else [] :=
  rfl

/-- The fuel is irrelevant as soon as it covers the iteration count. -/
theorem emitFromAux_fuel_eq :
    ∀ f g dur lim s, lim + stepSec - s ≤ f → lim + stepSec - s ≤ g →
      emitFromAux f dur lim s = emitFromAux g dur lim s := by
  intro f
  induction f with
  | zero =>
    intro g dur lim s hf _
    simp only [stepSec] at hf
    have hs : ¬ s + dur ≤ lim := by omega
    cases g with
    | zero => rfl
    | succ g => rw [emitFromAux_zero, emitFromAux_succ, if_neg hs]
  | succ f ih =>
    intro g dur lim s hf hg
    cases g with
    | zero =>
      simp only [stepSec] at hg
      have hs : ¬ s + dur ≤ lim := by omega
      rw [emitFromAux_zero, emitFromAux_succ, if_neg hs]
    | succ g =>
      rw [emitFromAux_succ, emitFromAux_succ]
      by_cases hs : s + dur ≤ lim
      · simp only [if_pos hs]
        simp only [stepSec] at hf hg
        rw [ih g dur lim (s + stepSec) (by simp only [stepSec]; omega)
          (by simp only [stepSec]; omega)]
      · simp only [if_neg hs]

/-- The loop equation: `emitFrom` satisfies the defining equation of the
`while` loop in the source (and, the loop terminating, is its unique
solution). -/
theorem emitFrom_spec (dur lim s : Nat) :
    emitFrom dur lim s =
      if s + dur ≤ lim then s :: emitFrom dur lim (s + stepSec) else [] := by
  by_cases hs : s + dur ≤ lim
  · have h1 : lim + stepSec - s = (lim + stepSec - s - 1) + 1 := by
      simp only [stepSec]; omega
    rw [emitFrom, h1, emitFromAux_succ, if_pos hs, if_pos hs, emitFrom]
    rw [emitFromAux_fuel_eq (lim + stepSec - s - 1)
      (lim + stepSec - (s + stepSec)) dur lim (s + stepSec)
      (by simp only [stepSec]; omega) (by omega)]
  · rw [emitFrom, if_neg hs]
    cases hzero : lim + stepSec - s with
    | zero => rw [emitFromAux_zero]
    | succ g => rw [emitFromAux_succ, if_neg hs]

/-- The sweep over the (sorted) busy intervals of one day, lines 196-220
of the source: for each busy interval, if a slot fits before its start,
emit the grid slots that fit, then advance the cursor to
`max(slot_start, busy_end)`.  Returns the emitted slot starts and the
final cursor. -/
def sweepBusy (dur : Nat) : List Iv → Nat → List Nat × Nat
  | [], s => ([], s)
  | b :: rest, s =>
    let emitted := if s + dur ≤ b.start then emitFrom dur b.start s else []
    let next := sweepBusy dur rest (max s b.stop)
    (emitted ++ next.1, next.2)

/-- Work-window start of day `d` (lines 179-186): 09:00 of the day, and
for the day of `now` the maximum of 09:00 and `now` with its minute
floored to a multiple of 30. -/
def workStartOn (now d : Nat) : Nat :=
  if d == dateOf now then
    max (d * secPerDay + workStartOfs) (roundDown30 now)
  else
    d * secPerDay + workStartOfs

/-- The slot starts produced for day `d`: sweep the sorted busy
intervals from the work-window start, then emit the remaining grid slots
that end by 18:00 (lines 222-237). -/
def dayStarts (ev : List Iv) (now dur d : Nat) : List Nat :=
  let ws := workStartOn now d
  let we := d * secPerDay + workEndOfs
  let swept := sweepBusy dur (sortBusy (busyOn ev d)) ws
  swept.1 ++ emitFrom dur we swept.2

/-- The slot dictionaries of one day. -/
def daySlots (ev : List Iv) (now dur d : Nat) : List SlotR :=
  (dayStarts ev now dur d).map (fun c => ⟨c, c + dur, fmtTime c⟩)

/-- Embedding of `get_available_slots(days, duration_minutes)` for a
calendar whose relevant events are `ev` and current time `now`: iterate
the days from the date of `now` through the date of `now + days·86400`
inclusive, concatenate the slots of every day, and keep the first 10
(line 243). -/
def getAvailableSlots (ev : List Iv) (now days durMin : Nat) : List SlotR :=
  let dur := durMin * 60
  (((List.range (days + 1)).map
      (fun i => daySlots ev now dur (dateOf now + i))).flatten).take 10

/-! ## Selection parsing (`_check_if_slot_selected`, lines 210-231) -/

/-- Python `str.split()` with no argument: split on maximal runs of
whitespace, discarding empty tokens (so the `.strip()` the source
applies first changes nothing).  Implemented on the character list. -/
def splitWsAux : List Char → List Char → List String
  | [], acc => if acc.isEmpty then [] else [String.mk acc.reverse]
  | c :: cs, acc =>
    if c.isWhitespace then
      if acc.isEmpty then splitWsAux cs [] else
        String.mk acc.reverse :: splitWsAux cs []
    else splitWsAux cs (c :: acc)

/-- Models `message_text.strip().split()`. -/
def pySplit (s : String) : List String := splitWsAux s.data []

/-- Python `str.isdigit()` (restricted to ASCII decimal digits): the
token is non-empty and all its characters are digits. -/
def pyIsDigit (s : String) : Bool := !s.data.isEmpty && s.data.all Char.isDigit

/-- Python `int(...)` on a string of decimal digits. -/
def pyInt (s : String) : Nat :=
  s.data.foldl (fun acc c => acc * 10 + (c.toNat - 48)) 0

/-- The token scan of `_check_if_slot_selected`: for each
whitespace-delimited token in order, if it is all digits, compute
`slot_index = int(token) - 1` and return `available_slots[slot_index]`
when `0 <= slot_index < len(available_slots)`; otherwise keep
scanning. -/
def selScan (slots : List SlotR) : List String → Option SlotR
  | [] => none
  | t :: rest =>
    if pyIsDigit t then
      let idx : Int := (pyInt t : Int) - 1
      if 0 ≤ idx ∧ idx < (slots.length : Int) then slots[idx.toNat]?
      else selScan slots rest
    else selScan slots rest

/-- Embedding of `_check_if_slot_selected(message_text, available_slots)`. -/
def checkIfSlotSelected (text : String) (slots : List SlotR) : Option SlotR :=
  selScan slots (pySplit text)

/-! ## The conversation state machine (`process_message`, lines 115-208) -/

/-- A transcript role. -/
inductive Role where
  | user
  | assistant
deriving DecidableEq, Repr

/-- One transcript entry (`{"role": ..., "content": ...}`). -/
structure ChatMsg where
  role : Role
  content : String
deriving DecidableEq, Repr

/-- The conversation context of one counterpart, the entry of
`self.conversation_context` for that user id (lines 128-132). -/
structure Ctx where
  messages : List ChatMsg
  meeting_scheduling : Bool
  available_slots : List SlotR
deriving DecidableEq, Repr

/-- The context created for a new dialogue (lines 128-132). -/
def initialCtx : Ctx := ⟨[], false, []⟩

/-- The values returned by the awaited collaborator calls of one turn.
Each wrapper catches its own exceptions, so a collaborator failure
surfaces as the degraded value: `meetingIntent = false` for the
classifier, `slots = []` for the slot lookup, `meetLink = none` for the
booking call, and `gptReply = openaiApology` for reply generation. -/
structure Oracle where
  meetingIntent : Bool
  slots : List SlotR
  meetLink : Option String
  gptReply : String
deriving DecidableEq, Repr

/-- Observable actions of one turn, in program order. -/
inductive Ev where
  | appendUser (content : String)
  | classify (text : String)
  | slotQuery
  | booking (startT endT : Nat)
  | genReply
  | send (text : String)
  | appendAssistant (content : String)
deriving DecidableEq, Repr

/-- Python string interpolation of the booking result: `None` prints as
the four-character string, a link prints as itself. -/
def pyShow : Option String → String
  | none => "None"
  | some s => s

/-- The confirmation reply of lines 156-157, with the display string of
the selected slot and the interpolated booking result. -/
def confirmResponse (slot : SlotR) (link : Option String) : String :=
  "Отлично! Я создал встречу на " ++ slot.startStr ++ ". " ++
    "Вот ссылка для подключения: " ++ pyShow link

/-- The numbered slot list of lines 182-183. -/
def offerResponse (slots : List SlotR) : String :=
  let slotsText := String.intercalate "\n"
    (slots.enum.map (fun p => toString (p.1 + 1) ++ ". " ++ p.2.startStr))
  "Я могу назначить видеовстречу для более детального обсуждения. " ++
    "Вот доступные временные слоты:\n\n" ++ slotsText ++
    "\n\nПожалуйста, выберите номер удобного для вас временного слота."

/-- The no-availability reply of line 189. -/
def noSlotsResponse : String :=
  "К сожалению, на ближайшие дни нет доступных временных слотов для встречи. Могу я помочь вам с чем-то еще?"

/-- The static apology `get_response` returns when the OpenAI call
raises (openai_integration.py line 89). -/
def openaiApology : String :=
  "Извините, произошла ошибка при обработке вашего запроса. Пожалуйста, попробуйте еще раз."

/-- Lines 194-201, shared by every non-selection branch: send the
response, then append it to the transcript as an assistant turn. -/
def finishTurn (ctx2 : Ctx) (response : String) (evs : List Ev) :
    Ctx × List Ev :=
  ({ ctx2 with messages := ctx2.messages ++ [⟨Role.assistant, response⟩] },
   evs ++ [Ev.send response, Ev.appendAssistant response])

/-- Lines 173-201: the intent check and the branches that follow it.
`detect_meeting_intent` is always called here; the scheduling offer is
made only when it returns `True` *and* no offer is outstanding. -/
def intentPhase (text : String) (ctx1 : Ctx) (o : Oracle) : Ctx × List Ev :=
  let evs := [Ev.appendUser text, Ev.classify text]
  if o.meetingIntent && !ctx1.meeting_scheduling then
    let available_slots := o.slots
    if !available_slots.isEmpty then
      finishTurn
        { ctx1 with meeting_scheduling := true,
                    available_slots := available_slots }
        (offerResponse available_slots) (evs ++ [Ev.slotQuery])
    else
      finishTurn ctx1 noSlotsResponse (evs ++ [Ev.slotQuery])
  else
    finishTurn ctx1 o.gptReply (evs ++ [Ev.genReply])

/-- One turn of `process_message` on an already-created context: append
the user message; if an offer is outstanding and the message selects a
slot, call the booking gateway, send the confirmation (embedding
whatever the gateway returned), clear the offer and append the reply
(lines 142-171); otherwise run the intent phase (lines 173-201). -/
def processMessage (text : String) (ctx : Ctx) (o : Oracle) : Ctx × List Ev :=
  let ctx1 : Ctx := { ctx with messages := ctx.messages ++ [⟨Role.user, text⟩] }
  if ctx1.meeting_scheduling then
    match checkIfSlotSelected text ctx1.available_slots with
    | some slot =>
      let response := confirmResponse slot o.meetLink
      ({ ctx1 with meeting_scheduling := false, available_slots := [],
                   messages := ctx1.messages ++ [⟨Role.assistant, response⟩] },
       [Ev.appendUser text, Ev.booking slot.start slot.endTime,
        Ev.send response, Ev.appendAssistant response])
    | none => intentPhase text ctx1 o
  else intentPhase text ctx1 o

/-- Run a sequence of turns from the freshly created context. -/
def runTurns (turns : List (String × Oracle)) : Ctx :=
  turns.foldl (fun c p => (processMessage p.1 c p.2).1) initialCtx

/-! ## Property vocabulary -/

/-- Half-open interval intersection: `[s1, e1)` meets `[s2, e2)`. -/
def ivMeets (s1 e1 s2 e2 : Nat) : Prop := s1 < e2 ∧ s2 < e1

instance (s1 e1 s2 e2 : Nat) : Decidable (ivMeets s1 e1 s2 e2) :=
  decidable_of_iff (s1 < e2 ∧ s2 < e1) (by rw [ivMeets])

/-- The session invariant of the data model: the offered-slot list is
non-empty exactly when an offer is outstanding. -/
def ctxInv (c : Ctx) : Prop :=
  c.available_slots ≠ [] ↔ c.meeting_scheduling = true

instance (c : Ctx) : Decidable (ctxInv c) :=
  decidable_of_iff (c.available_slots ≠ [] ↔ c.meeting_scheduling = true)
    (by rw [ctxInv])

/-- Checks that every `send` of an assistant reply is preceded in the
trace by the matching transcript append (the ordering the specification
asserts).  `seen` accumulates the replies appended so far. -/
def sendsPrecededByAppend : List Ev → List String → Bool
  | [], _ => true
  | Ev.appendAssistant s :: rest, seen => sendsPrecededByAppend rest (s :: seen)
  | Ev.send s :: rest, seen => seen.contains s && sendsPrecededByAppend rest seen
  | _ :: rest, seen => sendsPrecededByAppend rest seen

/-- Checks that every `send` of an assistant reply is followed, later in
the trace of the same turn, by the matching transcript append. -/
def sendsFollowedByAppend : List Ev → Bool
  | [] => true
  | Ev.send s :: rest =>
    rest.contains (Ev.appendAssistant s) && sendsFollowedByAppend rest
  | _ :: rest => sendsFollowedByAppend rest

/-! ## Lemmas about the emission loop -/

theorem emitFromAux_mem :
    ∀ f dur lim s x, x ∈ emitFromAux f dur lim s → s ≤ x ∧ x + dur ≤ lim := by
  intro f
  induction f with
  | zero =>
    intro dur lim s x hx
    rw [emitFromAux_zero] at hx
    exact absurd hx (List.not_mem_nil x)
  | succ f ih =>
    intro dur lim s x hx
    rw [emitFromAux_succ] at hx
    by_cases hs : s + dur ≤ lim
    · rw [if_pos hs] at hx
      rcases List.mem_cons.mp hx with h | h
      · subst h
        exact ⟨Nat.le_refl x, hs⟩
      · have h2 := ih dur lim (s + stepSec) x h
        exact ⟨by omega, h2.2⟩
    · rw [if_neg hs] at hx
      exact absurd hx (List.not_mem_nil x)

theorem emitFrom_mem {dur lim s x : Nat} (hx : x ∈ emitFrom dur lim s) :
    s ≤ x ∧ x + dur ≤ lim :=
  emitFromAux_mem _ dur lim s x hx

theorem emitFromAux_pairwise :
    ∀ f dur lim s, (emitFromAux f dur lim s).Pairwise (· < ·) := by
  intro f
  induction f with
  | zero =>
    intro dur lim s
    rw [emitFromAux_zero]
    exact List.Pairwise.nil
  | succ f ih =>
    intro dur lim s
    rw [emitFromAux_succ]
    by_cases hs : s + dur ≤ lim
    · rw [if_pos hs]
      refine List.Pairwise.cons ?_ (ih dur lim (s + stepSec))
      intro y hy
      have h := (emitFromAux_mem f dur lim (s + stepSec) y hy).1
      simp only [stepSec] at h
      omega
    · rw [if_neg hs]
      exact List.Pairwise.nil

theorem emitFrom_pairwise (dur lim s : Nat) :
    (emitFrom dur lim s).Pairwise (· < ·) :=
  emitFromAux_pairwise _ dur lim s

/-! ## Lemmas about the per-day sweep -/

theorem sweepBusy_nil (dur s : Nat) : sweepBusy dur [] s = ([], s) := rfl

theorem sweepBusy_cons (dur s : Nat) (b : Iv) (rest : List Iv) :
    sweepBusy dur (b :: rest) s =
      ((if s + dur ≤ b.start then emitFrom dur b.start s else []) ++
        (sweepBusy dur rest (max s b.stop)).1,
       (sweepBusy dur rest (max s b.stop)).2) := rfl

theorem sweepBusy_cursor_ge (dur : Nat) :
    ∀ bs s, s ≤ (sweepBusy dur bs s).2 := by
  intro bs
  induction bs with
  | nil =>
    intro s
    rw [sweepBusy_nil]
  | cons b rest ih =>
    intro s
    rw [sweepBusy_cons]
    exact Nat.le_trans (Nat.le_max_left s b.stop) (ih (max s b.stop))

theorem sweepBusy_cursor_ge_stop (dur : Nat) :
    ∀ bs s b, b ∈ bs → b.stop ≤ (sweepBusy dur bs s).2 := by
  intro bs
  induction bs with
  | nil =>
    intro s b hb
    exact absurd hb (List.not_mem_nil b)
  | cons b0 rest ih =>
    intro s b hb
    rw [sweepBusy_cons]
    rcases List.mem_cons.mp hb with h | h
    · subst h
      exact Nat.le_trans (Nat.le_max_right s b.stop)
        (sweepBusy_cursor_ge dur rest (max s b.stop))
    · exact ih (max s b0.stop) b h

theorem sweepBusy_mem_ge (dur : Nat) :
    ∀ bs s x, x ∈ (sweepBusy dur bs s).1 → s ≤ x := by
  intro bs
  induction bs with
  | nil =>
    intro s x hx
    rw [sweepBusy_nil] at hx
    exact absurd hx (List.not_mem_nil x)
  | cons b rest ih =>
    intro s x hx
    rw [sweepBusy_cons] at hx
    rcases List.mem_append.mp hx with h | h
    · by_cases hs : s + dur ≤ b.start
      · rw [if_pos hs] at h
        exact (emitFrom_mem h).1
      · rw [if_neg hs] at h
        exact absurd h (List.not_mem_nil x)
    · exact Nat.le_trans (Nat.le_max_left s b.stop) (ih (max s b.stop) x h)

theorem sweepBusy_mem_bound (dur : Nat) :
    ∀ bs s x, x ∈ (sweepBusy dur bs s).1 →
      ∃ b, b ∈ bs ∧ x + dur ≤ b.start := by
  intro bs
  induction bs with
  | nil =>
    intro s x hx
    rw [sweepBusy_nil] at hx
    exact absurd hx (List.not_mem_nil x)
  | cons b rest ih =>
    intro s x hx
    rw [sweepBusy_cons] at hx
    rcases List.mem_append.mp hx with h | h
    · by_cases hs : s + dur ≤ b.start
      · rw [if_pos hs] at h
        exact ⟨b, List.mem_cons_self b rest, (emitFrom_mem h).2⟩
      · rw [if_neg hs] at h
        exact absurd h (List.not_mem_nil x)
    · obtain ⟨b2, hb2, hle⟩ := ih (max s b.stop) x h
      exact ⟨b2, List.mem_cons_of_mem b hb2, hle⟩

theorem sweepBusy_mem_lt_cursor (dur : Nat) :
    ∀ bs s, (∀ b, b ∈ bs → b.start < b.stop) →
      ∀ x, x ∈ (sweepBusy dur bs s).1 → x < (sweepBusy dur bs s).2 := by
  intro bs
  induction bs with
  | nil =>
    intro s _ x hx
    rw [sweepBusy_nil] at hx
    exact absurd hx (List.not_mem_nil x)
  | cons b rest ih =>
    intro s hv x hx
    rw [sweepBusy_cons] at hx ⊢
    rcases List.mem_append.mp hx with h | h
    · by_cases hs : s + dur ≤ b.start
      · rw [if_pos hs] at h
        have h1 := (emitFrom_mem h).2
        have h2 : b.start < b.stop := hv b (List.mem_cons_self b rest)
        have h3 : b.stop ≤ (sweepBusy dur rest (max s b.stop)).2 :=
          Nat.le_trans (Nat.le_max_right s b.stop)
            (sweepBusy_cursor_ge dur rest (max s b.stop))
        omega
      · rw [if_neg hs] at h
        exact absurd h (List.not_mem_nil x)
    · exact ih (max s b.stop) (fun b2 hb2 => hv b2 (List.mem_cons_of_mem b hb2))
        x h

theorem sweepBusy_pairwise (dur : Nat) :
    ∀ bs s, (∀ b, b ∈ bs → b.start < b.stop) →
      (sweepBusy dur bs s).1.Pairwise (· < ·) := by
  intro bs
  induction bs with
  | nil =>
    intro s _
    rw [sweepBusy_nil]
    exact List.Pairwise.nil
  | cons b rest ih =>
    intro s hv
    rw [sweepBusy_cons]
    have hvr : ∀ b2, b2 ∈ rest → b2.start < b2.stop :=
      fun b2 hb2 => hv b2 (List.mem_cons_of_mem b hb2)
    refine List.pairwise_append.mpr ⟨?_, ih (max s b.stop) hvr, ?_⟩
    · by_cases hs : s + dur ≤ b.start
      · rw [if_pos hs]
        exact emitFrom_pairwise dur b.start s
      · rw [if_neg hs]
        exact List.Pairwise.nil
    · intro x hx y hy
      by_cases hs : s + dur ≤ b.start
      · rw [if_pos hs] at hx
        have h1 := (emitFrom_mem hx).2
        have h2 : b.start < b.stop := hv b (List.mem_cons_self b rest)
        have h3 : max s b.stop ≤ y := sweepBusy_mem_ge dur rest (max s b.stop) y hy
        have h4 : b.stop ≤ max s b.stop := Nat.le_max_right s b.stop
        omega
      · rw [if_neg hs] at hx
        exact absurd hx (List.not_mem_nil x)

theorem sweepBusy_no_overlap (dur : Nat) :
    ∀ bs s, (∀ b, b ∈ bs → b.start < b.stop) →
      bs.Pairwise (fun a b => a.stop ≤ b.start) →
      ∀ x, x ∈ (sweepBusy dur bs s).1 →
        ∀ b, b ∈ bs → x + dur ≤ b.start ∨ b.stop ≤ x := by
  intro bs
  induction bs with
  | nil =>
    intro s _ _ x hx
    rw [sweepBusy_nil] at hx
    exact absurd hx (List.not_mem_nil x)
  | cons b0 rest ih =>
    intro s hv hp x hx b hb
    rw [sweepBusy_cons] at hx
    have hchain : ∀ r, r ∈ rest → b0.stop ≤ r.start :=
      fun r hr => (List.pairwise_cons.mp hp).1 r hr
    have hvr : ∀ b2, b2 ∈ rest → b2.start < b2.stop :=
      fun b2 hb2 => hv b2 (List.mem_cons_of_mem b0 hb2)
    rcases List.mem_append.mp hx with h | h
    · by_cases hs : s + dur ≤ b0.start
      · rw [if_pos hs] at h
        have h1 := (emitFrom_mem h).2
        rcases List.mem_cons.mp hb with hb0 | hbr
        · subst hb0
          exact Or.inl h1
        · have h2 : b0.start < b0.stop := hv b0 (List.mem_cons_self b0 rest)
          have h3 := hchain b hbr
          exact Or.inl (by omega)
      · rw [if_neg hs] at h
        exact absurd h (List.not_mem_nil x)
    · rcases List.mem_cons.mp hb with hb0 | hbr
      · subst hb0
        have h1 : max s b.stop ≤ x := sweepBusy_mem_ge dur rest (max s b.stop) x h
        exact Or.inr (Nat.le_trans (Nat.le_max_right s b.stop) h1)
      · exact ih (max s b0.stop) hvr (List.pairwise_cons.mp hp).2 x h b hbr

/-! ## Lemmas about one day of the search -/

theorem sortBusy_mem {l : List Iv} {b : Iv} : b ∈ sortBusy l ↔ b ∈ l :=
  (List.perm_insertionSort _ l).mem_iff

theorem busyOn_mem {ev : List Iv} {d : Nat} {b : Iv} (hb : b ∈ busyOn ev d) :
    b ∈ ev ∧ dateOf b.start = d := by
  have h := List.mem_filter.mp hb
  exact ⟨h.1, by simpa using h.2⟩

theorem roundDown30_le (t : Nat) : roundDown30 t ≤ t := by
  rw [roundDown30]
  omega

theorem workStartOn_ge (now d : Nat) :
    d * secPerDay + workStartOfs ≤ workStartOn now d := by
  rw [workStartOn]
  by_cases h : d == dateOf now
  · rw [if_pos h]
    exact Nat.le_max_left _ _
  · rw [if_neg h]

theorem workStartOn_today (now : Nat) :
    roundDown30 now ≤ workStartOn now (dateOf now) := by
  rw [workStartOn, if_pos (beq_self_eq_true (dateOf now))]
  exact Nat.le_max_right _ _

theorem dayStarts_eq (ev : List Iv) (now dur d : Nat) :
    dayStarts ev now dur d =
      (sweepBusy dur (sortBusy (busyOn ev d)) (workStartOn now d)).1 ++
        emitFrom dur (d * secPerDay + workEndOfs)
          (sweepBusy dur (sortBusy (busyOn ev d)) (workStartOn now d)).2 := rfl

theorem dayStarts_mem_ge {ev : List Iv} {now dur d x : Nat}
    (hx : x ∈ dayStarts ev now dur d) : workStartOn now d ≤ x := by
  rw [dayStarts_eq] at hx
  rcases List.mem_append.mp hx with h | h
  · exact sweepBusy_mem_ge dur _ _ x h
  · exact Nat.le_trans (sweepBusy_cursor_ge dur _ _) (emitFrom_mem h).1

theorem dayStarts_mem_ub {ev : List Iv} {now dur d x : Nat}
    (hx : x ∈ dayStarts ev now dur d) : x < (d + 1) * secPerDay := by
  rw [dayStarts_eq] at hx
  rcases List.mem_append.mp hx with h | h
  · obtain ⟨b, hb, hle⟩ := sweepBusy_mem_bound dur _ _ x h
    have hdate := (busyOn_mem (sortBusy_mem.mp hb)).2
    simp only [dateOf, secPerDay] at hdate ⊢
    omega
  · have h2 := (emitFrom_mem h).2
    simp only [secPerDay, workEndOfs] at h2 ⊢
    omega

theorem dayStarts_mem_lb {ev : List Iv} {now dur d x : Nat}
    (hx : x ∈ dayStarts ev now dur d) : d * secPerDay + workStartOfs ≤ x :=
  Nat.le_trans (workStartOn_ge now d) (dayStarts_mem_ge hx)

theorem dayStarts_endBound {ev : List Iv} {now dur d x : Nat}
    (hev : ∀ b, b ∈ ev → b.start % secPerDay ≤ workEndOfs)
    (hx : x ∈ dayStarts ev now dur d) :
    x + dur ≤ d * secPerDay + workEndOfs := by
  rw [dayStarts_eq] at hx
  rcases List.mem_append.mp hx with h | h
  · obtain ⟨b, hb, hle⟩ := sweepBusy_mem_bound dur _ _ x h
    obtain ⟨hbev, hdate⟩ := busyOn_mem (sortBusy_mem.mp hb)
    have hofs := hev b hbev
    simp only [dateOf, secPerDay, workEndOfs] at hdate hofs ⊢
    omega
  · exact (emitFrom_mem h).2

theorem dayStarts_pairwise {ev : List Iv} {now dur d : Nat}
    (hv : ∀ b, b ∈ ev → b.start < b.stop) :
    (dayStarts ev now dur d).Pairwise (· < ·) := by
  rw [dayStarts_eq]
  have hvs : ∀ b, b ∈ sortBusy (busyOn ev d) → b.start < b.stop :=
    fun b hb => hv b (busyOn_mem (sortBusy_mem.mp hb)).1
  refine List.pairwise_append.mpr
    ⟨sweepBusy_pairwise dur _ _ hvs, emitFrom_pairwise _ _ _, ?_⟩
  intro x hx y hy
  exact Nat.lt_of_lt_of_le (sweepBusy_mem_lt_cursor dur _ _ hvs x hx)
    (emitFrom_mem hy).1

theorem dayStarts_no_overlap {ev : List Iv} {now dur d : Nat}
    (hv : ∀ b, b ∈ busyOn ev d → b.start < b.stop)
    (hsorted : (busyOn ev d).Pairwise (fun a b => a.start ≤ b.start))
    (hnol : (busyOn ev d).Pairwise
      (fun a b => ¬ ivMeets a.start a.stop b.start b.stop)) :
    ∀ x, x ∈ dayStarts ev now dur d →
      ∀ b, b ∈ busyOn ev d → x + dur ≤ b.start ∨ b.stop ≤ x := by
  have hchain : (busyOn ev d).Pairwise (fun a b => a.stop ≤ b.start) := by
    refine (hsorted.and hnol).imp_of_mem ?_
    intro a b ha hb hab
    rcases hab with ⟨hle, hno⟩
    rw [ivMeets] at hno
    have hva := hv a ha
    have hvb := hv b hb
    omega
  have hid : sortBusy (busyOn ev d) = busyOn ev d :=
    List.Sorted.insertionSort_eq hsorted
  intro x hx b hb
  rw [dayStarts_eq, hid] at hx
  rcases List.mem_append.mp hx with h | h
  · exact sweepBusy_no_overlap dur _ _ hv hchain x h b hb
  · have h1 := (emitFrom_mem h).1
    have h2 := sweepBusy_cursor_ge_stop dur (busyOn ev d) (workStartOn now d) b hb
    exact Or.inr (Nat.le_trans h2 h1)

/-! ## Lemmas about the full search -/

theorem getAvailableSlots_eq (ev : List Iv) (now days durMin : Nat) :
    getAvailableSlots ev now days durMin =
      (((List.range (days + 1)).map
        (fun i => daySlots ev now (durMin * 60) (dateOf now + i))).flatten).take
        10 := rfl

theorem daySlots_mem {ev : List Iv} {now dur d : Nat} {sl : SlotR}
    (h : sl ∈ daySlots ev now dur d) :
    sl.start ∈ dayStarts ev now dur d ∧ sl.endTime = sl.start + dur := by
  rw [daySlots, List.mem_map] at h
  obtain ⟨c, hc, rfl⟩ := h
  exact ⟨hc, rfl⟩

theorem daySlots_date {ev : List Iv} {now dur d : Nat} {sl : SlotR}
    (h : sl ∈ daySlots ev now dur d) : dateOf sl.start = d := by
  have h1 := dayStarts_mem_lb (daySlots_mem h).1
  have h2 := dayStarts_mem_ub (daySlots_mem h).1
  simp only [dateOf, secPerDay, workStartOfs] at h1 h2 ⊢
  omega

theorem getAvailableSlots_mem {ev : List Iv} {now days durMin : Nat}
    {sl : SlotR} (h : sl ∈ getAvailableSlots ev now days durMin) :
    ∃ i, i < days + 1 ∧ sl ∈ daySlots ev now (durMin * 60) (dateOf now + i) := by
  rw [getAvailableSlots_eq] at h
  have h2 := List.mem_of_mem_take h
  rw [List.mem_flatten] at h2
  obtain ⟨l, hl, hsl⟩ := h2
  rw [List.mem_map] at hl
  obtain ⟨i, hi, rfl⟩ := hl
  exact ⟨i, List.mem_range.mp hi, hsl⟩

theorem getAvailableSlots_pairwise_lt {ev : List Iv} {now days durMin : Nat}
    (hv : ∀ b, b ∈ ev → b.start < b.stop) :
    (getAvailableSlots ev now days durMin).Pairwise
      (fun a b => a.start < b.start) := by
  rw [getAvailableSlots_eq]
  refine List.Pairwise.sublist (List.take_sublist _ _) ?_
  rw [List.pairwise_flatten]
  constructor
  · intro l hl
    rw [List.mem_map] at hl
    obtain ⟨i, _, rfl⟩ := hl
    rw [daySlots]
    exact List.pairwise_map.mpr (dayStarts_pairwise hv)
  · refine List.pairwise_map.mpr ((List.pairwise_lt_range _).imp ?_)
    intro i j hij x hx y hy
    have hxu := dayStarts_mem_ub (daySlots_mem hx).1
    have hyl := dayStarts_mem_lb (daySlots_mem hy).1
    simp only [secPerDay, workStartOfs] at hxu hyl
    have hstep : dateOf now + i + 1 ≤ dateOf now + j := by omega
    have h1 : (dateOf now + i + 1) * 86400 ≤ (dateOf now + j) * 86400 :=
      Nat.mul_le_mul_right 86400 hstep
    omega

/-! ## Claim C2 -/

/-- C2, counterexample to the claim as stated: with one busy interval
19:00-20:00 and `now` = 16:47:00 on day 0 (horizon 0, duration 30 min),
the slot 16:30-17:00 is emitted although it starts before `now` on
the date of `now` itself (the source rounds `now` *down* to the previous
30-minute boundary, not up), and the slot 18:30-19:00 is emitted
although it ends after `workEnd` = 18:00 of its day (the sweep before a
busy interval is not clipped to the work window). -/
theorem c2_counterexample :
    (⟨59400, 61200, fmtTime 59400⟩ : SlotR) ∈
        getAvailableSlots [⟨68400, 72000⟩] 60420 0 30 ∧
      59400 < 60420 ∧ dateOf 59400 = dateOf 60420 ∧
      (⟨66600, 68400, fmtTime 66600⟩ : SlotR) ∈
        getAvailableSlots [⟨68400, 72000⟩] 60420 0 30 ∧
      dateOf 66600 * secPerDay + workEndOfs < 68400 := by decide

/-- C2 amended: on the day equal to the date of `now` the work-window start
is clipped to `max(workStart, now rounded down to the previous 30-minute
boundary)`, so no emitted slot starts before that boundary (a slot may
start up to one step before `now`); on every day no emitted slot starts
before `workStart` (09:00); and no emitted slot ends after `workEnd`
(18:00) provided every busy interval starts within the working window of
its day (in particular when there are no busy intervals). -/
theorem c2_window_bounds (ev : List Iv) (now days durMin : Nat) :
    ∀ sl ∈ getAvailableSlots ev now days durMin,
      workStartOfs ≤ sl.start % secPerDay ∧
      (dateOf sl.start = dateOf now → roundDown30 now ≤ sl.start) ∧
      ((∀ b ∈ ev, b.start % secPerDay ≤ workEndOfs) →
        sl.endTime ≤ dateOf sl.start * secPerDay + workEndOfs) := by
  intro sl hsl
  obtain ⟨i, hi, hday⟩ := getAvailableSlots_mem hsl
  have hdate := daySlots_date hday
  obtain ⟨hmem, hend⟩ := daySlots_mem hday
  refine ⟨?_, ?_, ?_⟩
  · have h1 := dayStarts_mem_lb hmem
    have h2 := dayStarts_mem_ub hmem
    simp only [dateOf, secPerDay, workStartOfs] at h1 h2 hdate ⊢
    omega
  · intro htoday
    have hsame : dateOf now + i = dateOf now := by rw [← hdate, htoday]
    have hi0 : i = 0 := by omega
    subst hi0
    have h1 := dayStarts_mem_ge hmem
    rw [Nat.add_zero] at h1
    exact Nat.le_trans (workStartOn_today now) h1
  · intro hev
    have h := dayStarts_endBound hev hmem
    rw [hend, hdate]
    exact h

/-- C2 witness: evaluation of the amended bounds at
`now` = 10:17:00 on day 0 with an empty calendar; the first emitted slot
is 10:00-10:30. -/
theorem c2_witness :
    workStartOfs ≤ 36000 % secPerDay ∧
      (dateOf 36000 = dateOf 37020 → roundDown30 37020 ≤ 36000) ∧
      ((∀ b ∈ ([] : List Iv), b.start % secPerDay ≤ workEndOfs) →
        (37800 : Nat) ≤ dateOf 36000 * secPerDay + workEndOfs) :=
  c2_window_bounds [] 37020 0 30 ⟨36000, 37800, fmtTime 36000⟩ (by decide)

/-! ## Claim C3 -/

/-- C3: for every day whose busy intervals are genuine (`start < end`),
pairwise non-overlapping and sorted ascending by start, no slot emitted
by the slot finder for that day intersects any busy interval of that
day. -/
theorem c3_no_busy_overlap (ev : List Iv) (now days durMin d : Nat)
    (hv : ∀ b, b ∈ busyOn ev d → b.start < b.stop)
    (hsorted : (busyOn ev d).Pairwise (fun a b => a.start ≤ b.start))
    (hnol : (busyOn ev d).Pairwise
      (fun a b => ¬ ivMeets a.start a.stop b.start b.stop)) :
    ∀ sl ∈ getAvailableSlots ev now days durMin, dateOf sl.start = d →
      ∀ b ∈ busyOn ev d, ¬ ivMeets sl.start sl.endTime b.start b.stop := by
  intro sl hsl hdate b hb
  obtain ⟨i, hi, hday⟩ := getAvailableSlots_mem hsl
  have hd : dateOf now + i = d := by rw [← daySlots_date hday, hdate]
  obtain ⟨hmem, hend⟩ := daySlots_mem hday
  rw [hd] at hmem
  have hdisj := dayStarts_no_overlap hv hsorted hnol sl.start hmem b hb
  rw [ivMeets, hend]
  omega

/-- C3 witness: one busy interval 09:30-10:00 on day 0; the emitted slot
09:00-09:30 does not intersect it. -/
theorem c3_witness :
    ¬ ivMeets 32400 34200 34200 36000 := by
  have h := c3_no_busy_overlap [⟨34200, 36000⟩] 0 0 30 0
    (by decide) (by decide) (by decide)
  exact h ⟨32400, 34200, fmtTime 32400⟩ (by decide) (by decide)
    ⟨34200, 36000⟩ (by decide)

/-! ## Claim C8 -/

/-- C8: for every busy map of genuine intervals, `now` and parameters,
the slot list is monotonically non-decreasing in start time and contains
no two slots with the same start time (the starts are in fact strictly
increasing). -/
theorem c8_monotone_nodup (ev : List Iv) (now days durMin : Nat)
    (hv : ∀ b, b ∈ ev → b.start < b.stop) :
    (getAvailableSlots ev now days durMin).Pairwise
        (fun a b => a.start ≤ b.start) ∧
      (getAvailableSlots ev now days durMin).Pairwise
        (fun a b => a.start ≠ b.start) := by
  have h : (getAvailableSlots ev now days durMin).Pairwise
      (fun a b => a.start < b.start) := getAvailableSlots_pairwise_lt hv
  exact ⟨h.imp (fun hab => Nat.le_of_lt hab),
    h.imp (fun hab => Nat.ne_of_lt hab)⟩

/-- C8 witness: evaluation with one genuine busy interval 10:00-11:00 on
day 0. -/
theorem c8_witness :
    (getAvailableSlots [⟨36000, 39600⟩] 0 0 30).Pairwise
        (fun a b => a.start ≤ b.start) ∧
      (getAvailableSlots [⟨36000, 39600⟩] 0 0 30).Pairwise
        (fun a b => a.start ≠ b.start) :=
  c8_monotone_nodup [⟨36000, 39600⟩] 0 0 30 (by decide)

/-! ## Branch equations of the state machine -/

theorem processMessage_select (ctx : Ctx) (text : String) (o : Oracle)
    (slot : SlotR) (hs : ctx.meeting_scheduling = true)
    (hsel : checkIfSlotSelected text ctx.available_slots = some slot) :
    processMessage text ctx o =
      (⟨ctx.messages ++ [⟨Role.user, text⟩,
          ⟨Role.assistant, confirmResponse slot o.meetLink⟩], false, []⟩,
       [Ev.appendUser text, Ev.booking slot.start slot.endTime,
        Ev.send (confirmResponse slot o.meetLink),
        Ev.appendAssistant (confirmResponse slot o.meetLink)]) := by
  simp [processMessage, hs, hsel]

theorem processMessage_noSelect (ctx : Ctx) (text : String) (o : Oracle)
    (hs : ctx.meeting_scheduling = true)
    (hsel : checkIfSlotSelected text ctx.available_slots = none) :
    processMessage text ctx o =
      intentPhase text
        { ctx with messages := ctx.messages ++ [⟨Role.user, text⟩] } o := by
  simp [processMessage, hs, hsel]

theorem processMessage_idle (ctx : Ctx) (text : String) (o : Oracle)
    (hs : ctx.meeting_scheduling = false) :
    processMessage text ctx o =
      intentPhase text
        { ctx with messages := ctx.messages ++ [⟨Role.user, text⟩] } o := by
  simp [processMessage, hs]

theorem intentPhase_offer (text : String) (ctx1 : Ctx) (o : Oracle)
    (hint : o.meetingIntent = true) (hs : ctx1.meeting_scheduling = false)
    (hne : o.slots ≠ []) :
    intentPhase text ctx1 o =
      (⟨ctx1.messages ++ [⟨Role.assistant, offerResponse o.slots⟩], true,
          o.slots⟩,
       [Ev.appendUser text, Ev.classify text, Ev.slotQuery,
        Ev.send (offerResponse o.slots),
        Ev.appendAssistant (offerResponse o.slots)]) := by
  have hne2 : o.slots.isEmpty = false := by
    cases hsl : o.slots with
    | nil => exact absurd hsl hne
    | cons a l => rfl
  simp [intentPhase, finishTurn, hint, hs, hne2]

theorem intentPhase_noSlots (text : String) (ctx1 : Ctx) (o : Oracle)
    (hint : o.meetingIntent = true) (hs : ctx1.meeting_scheduling = false)
    (hemp : o.slots = []) :
    intentPhase text ctx1 o =
      (⟨ctx1.messages ++ [⟨Role.assistant, noSlotsResponse⟩],
          ctx1.meeting_scheduling, ctx1.available_slots⟩,
       [Ev.appendUser text, Ev.classify text, Ev.slotQuery,
        Ev.send noSlotsResponse, Ev.appendAssistant noSlotsResponse]) := by
  simp [intentPhase, finishTurn, hint, hs, hemp]

theorem intentPhase_generic (text : String) (ctx1 : Ctx) (o : Oracle)
    (hcond : (o.meetingIntent && !ctx1.meeting_scheduling) = false) :
    intentPhase text ctx1 o =
      (⟨ctx1.messages ++ [⟨Role.assistant, o.gptReply⟩],
          ctx1.meeting_scheduling, ctx1.available_slots⟩,
       [Ev.appendUser text, Ev.classify text, Ev.genReply,
        Ev.send o.gptReply, Ev.appendAssistant o.gptReply]) := by
  simp [intentPhase, finishTurn, hcond]

/-! ## Unfolding equations of the trace checkers -/

theorem sFBA_nil : sendsFollowedByAppend [] = true := rfl

theorem sFBA_appendUser (t : String) (es : List Ev) :
    sendsFollowedByAppend (Ev.appendUser t :: es) = sendsFollowedByAppend es :=
  rfl

theorem sFBA_classify (t : String) (es : List Ev) :
    sendsFollowedByAppend (Ev.classify t :: es) = sendsFollowedByAppend es :=
  rfl

theorem sFBA_slotQuery (es : List Ev) :
    sendsFollowedByAppend (Ev.slotQuery :: es) = sendsFollowedByAppend es :=
  rfl

theorem sFBA_booking (a b : Nat) (es : List Ev) :
    sendsFollowedByAppend (Ev.booking a b :: es) = sendsFollowedByAppend es :=
  rfl

theorem sFBA_genReply (es : List Ev) :
    sendsFollowedByAppend (Ev.genReply :: es) = sendsFollowedByAppend es :=
  rfl

theorem sFBA_appendAssistant (t : String) (es : List Ev) :
    sendsFollowedByAppend (Ev.appendAssistant t :: es) =
      sendsFollowedByAppend es :=
  rfl

theorem sFBA_send (s : String) (es : List Ev) :
    sendsFollowedByAppend (Ev.send s :: es) =
      (es.contains (Ev.appendAssistant s) && sendsFollowedByAppend es) :=
  rfl

/-! ## Claim C10 -/

/-- C10: whenever an offer is outstanding and the message selects a
valid slot, the turn unconditionally moves the session back to idle with
the offered slots cleared — whatever the booking gateway returned,
including its failure value `None` — and the confirmation reply sent
embeds exactly that returned value. -/
theorem c10_selection_clears (ctx : Ctx) (text : String) (o : Oracle)
    (slot : SlotR) (hs : ctx.meeting_scheduling = true)
    (hsel : checkIfSlotSelected text ctx.available_slots = some slot) :
    processMessage text ctx o =
      (⟨ctx.messages ++ [⟨Role.user, text⟩,
          ⟨Role.assistant, confirmResponse slot o.meetLink⟩], false, []⟩,
       [Ev.appendUser text, Ev.booking slot.start slot.endTime,
        Ev.send (confirmResponse slot o.meetLink),
        Ev.appendAssistant (confirmResponse slot o.meetLink)]) :=
  processMessage_select ctx text o slot hs hsel

/-- C10 witness: a session awaiting selection of its single offered slot
receives "1" while the booking gateway fails (`None`): the state is
still cleared and the confirmation embedding `None` is sent. -/
theorem c10_witness :
    processMessage "1" ⟨[], true, [⟨36000, 37800, "s"⟩]⟩
        ⟨false, [], none, "r"⟩ =
      (⟨[⟨Role.user, "1"⟩,
          ⟨Role.assistant, confirmResponse ⟨36000, 37800, "s"⟩ none⟩],
         false, []⟩,
       [Ev.appendUser "1", Ev.booking 36000 37800,
        Ev.send (confirmResponse ⟨36000, 37800, "s"⟩ none),
        Ev.appendAssistant (confirmResponse ⟨36000, 37800, "s"⟩ none)]) := by
  have h := c10_selection_clears ⟨[], true, [⟨36000, 37800, "s"⟩]⟩ "1"
    ⟨false, [], none, "r"⟩ ⟨36000, 37800, "s"⟩ (by decide) (by decide)
  simpa using h

/-! ## Claim C6 -/

/-- C6, counterexample to the claim as stated: in a session awaiting
selection, a message whose selection parse fails still leads to a call
of the intent classifier (line 174 of the source runs before the
`meeting_scheduling` guard), so the classifier is *not* "never invoked"
while awaiting selection. -/
theorem c6_counterexample :
    Ev.classify "hello" ∈
      (processMessage "hello" ⟨[], true, [⟨0, 1800, "s"⟩]⟩
        ⟨false, [], none, "r"⟩).2 := by decide

/-- C6 amended: in a session awaiting selection, a message whose
selection parse fails leaves the session awaiting selection with the
same offered slots and falls through to default reply generation; the
intent classifier *is* invoked on such a turn, but its verdict has no
effect on the outcome (the offer branch is disabled while an offer is
outstanding). -/
theorem c6_failed_parse (ctx : Ctx) (text : String) (o : Oracle)
    (hs : ctx.meeting_scheduling = true)
    (hsel : checkIfSlotSelected text ctx.available_slots = none) :
    processMessage text ctx o =
      (⟨ctx.messages ++ [⟨Role.user, text⟩, ⟨Role.assistant, o.gptReply⟩],
          ctx.meeting_scheduling, ctx.available_slots⟩,
       [Ev.appendUser text, Ev.classify text, Ev.genReply,
        Ev.send o.gptReply, Ev.appendAssistant o.gptReply]) ∧
      (∀ b : Bool,
        processMessage text ctx ⟨b, o.slots, o.meetLink, o.gptReply⟩ =
          processMessage text ctx o) := by
  constructor
  · rw [processMessage_noSelect ctx text o hs hsel,
      intentPhase_generic text _ o (by simp [hs])]
    simp
  · intro b
    rw [processMessage_noSelect ctx text o hs hsel,
      processMessage_noSelect ctx text ⟨b, o.slots, o.meetLink, o.gptReply⟩ hs
        hsel,
      intentPhase_generic text _ o (by simp [hs]),
      intentPhase_generic text _ ⟨b, o.slots, o.meetLink, o.gptReply⟩
        (by simp [hs])]

/-- C6 witness: a session awaiting selection of one slot receives
"hello" (no selectable token): it stays awaiting with the same slots,
replies with the generated text, and the recorded trace shows the
classifier call. -/
theorem c6_witness :
    processMessage "hello" ⟨[], true, [⟨0, 1800, "s"⟩]⟩
        ⟨false, [], none, "r"⟩ =
      (⟨[⟨Role.user, "hello"⟩, ⟨Role.assistant, "r"⟩], true, [⟨0, 1800, "s"⟩]⟩,
       [Ev.appendUser "hello", Ev.classify "hello", Ev.genReply,
        Ev.send "r", Ev.appendAssistant "r"]) := by
  have h := c6_failed_parse ⟨[], true, [⟨0, 1800, "s"⟩]⟩ "hello"
    ⟨false, [], none, "r"⟩ (by decide) (by decide)
  simpa using h.1

/-! ## Claim C9 -/

/-- C9, counterexample to the claim as stated: on a plain conversational
turn the reply "ok" is sent *before* it is appended to the transcript
(source lines 195 and 198), so the send is not preceded by the
append. -/
theorem c9_counterexample :
    sendsPrecededByAppend
      (processMessage "hi" initialCtx ⟨false, [], none, "ok"⟩).2 [] = false := by
  decide

/-- C9 amended: on every turn, every assistant reply that is sent is
appended to the transcript immediately *after* the send but before the
turn ends, so each sent reply is in the session transcript once the turn
completes and later classifier or reply-generation calls see the full
history including it. -/
theorem c9_send_then_append (text : String) (ctx : Ctx) (o : Oracle) :
    sendsFollowedByAppend (processMessage text ctx o).2 = true ∧
      (∀ s, Ev.send s ∈ (processMessage text ctx o).2 →
        (⟨Role.assistant, s⟩ : ChatMsg) ∈ (processMessage text ctx o).1.messages) := by
  by_cases hs : ctx.meeting_scheduling
  · cases hsel : checkIfSlotSelected text ctx.available_slots with
    | some slot =>
      rw [processMessage_select ctx text o slot hs hsel]
      constructor
      · simp [sFBA_appendUser, sFBA_booking, sFBA_send, sFBA_appendAssistant,
          sFBA_nil]
      · intro s hmem
        simp only [List.mem_cons, List.not_mem_nil, or_false] at hmem
        rcases hmem with h | h | h | h
        all_goals simp_all
    | none =>
      rw [processMessage_noSelect ctx text o hs hsel,
        intentPhase_generic text _ o (by simp [hs])]
      constructor
      · simp [sFBA_appendUser, sFBA_classify, sFBA_genReply, sFBA_send,
          sFBA_appendAssistant, sFBA_nil]
      · intro s hmem
        simp only [List.mem_cons, List.not_mem_nil, or_false] at hmem
        rcases hmem with h | h | h | h | h
        all_goals simp_all
  · have hsf : ctx.meeting_scheduling = false := by simpa using hs
    rw [processMessage_idle ctx text o hsf]
    by_cases hint : o.meetingIntent = true
    · cases hslots : o.slots with
      | nil =>
        rw [intentPhase_noSlots text _ o hint (by simpa using hsf) hslots]
        constructor
        · simp [sFBA_appendUser, sFBA_classify, sFBA_slotQuery, sFBA_send,
            sFBA_appendAssistant, sFBA_nil]
        · intro s hmem
          simp only [List.mem_cons, List.not_mem_nil, or_false] at hmem
          rcases hmem with h | h | h | h | h
          all_goals simp_all
      | cons a l =>
        rw [intentPhase_offer text _ o hint (by simpa using hsf)
          (by simp [hslots])]
        constructor
        · simp [sFBA_appendUser, sFBA_classify, sFBA_slotQuery, sFBA_send,
            sFBA_appendAssistant, sFBA_nil]
        · intro s hmem
          simp only [List.mem_cons, List.not_mem_nil, or_false] at hmem
          rcases hmem with h | h | h | h | h
          all_goals simp_all
    · have hintf : o.meetingIntent = false := by simpa using hint
      rw [intentPhase_generic text _ o (by simp [hintf])]
      constructor
      · simp [sFBA_appendUser, sFBA_classify, sFBA_genReply, sFBA_send,
          sFBA_appendAssistant, sFBA_nil]
      · intro s hmem
        simp only [List.mem_cons, List.not_mem_nil, or_false] at hmem
        rcases hmem with h | h | h | h | h
        all_goals simp_all

/-- C9 witness: a concrete selection turn, with the send followed by the
matching transcript append and the sent reply present in the final
transcript. -/
theorem c9_witness :
    sendsFollowedByAppend
        (processMessage "1" ⟨[], true, [⟨0, 1800, "s"⟩]⟩
          ⟨false, [], none, "r"⟩).2 = true ∧
      ((⟨Role.assistant, confirmResponse ⟨0, 1800, "s"⟩ none⟩ : ChatMsg) ∈
        (processMessage "1" ⟨[], true, [⟨0, 1800, "s"⟩]⟩
          ⟨false, [], none, "r"⟩).1.messages) := by
  have h := c9_send_then_append "1" ⟨[], true, [⟨0, 1800, "s"⟩]⟩
    ⟨false, [], none, "r"⟩
  exact ⟨h.1, h.2 (confirmResponse ⟨0, 1800, "s"⟩ none) (by decide)⟩

/-! ## Claim C7 -/

theorem processMessage_inv (ctx : Ctx) (text : String) (o : Oracle)
    (h : ctxInv ctx) : ctxInv (processMessage text ctx o).1 := by
  by_cases hs : ctx.meeting_scheduling
  · cases hsel : checkIfSlotSelected text ctx.available_slots with
    | some slot =>
      rw [processMessage_select ctx text o slot hs hsel]
      simp [ctxInv]
    | none =>
      rw [processMessage_noSelect ctx text o hs hsel,
        intentPhase_generic text _ o (by simp [hs])]
      simpa [ctxInv] using h
  · have hsf : ctx.meeting_scheduling = false := by simpa using hs
    rw [processMessage_idle ctx text o hsf]
    by_cases hint : o.meetingIntent = true
    · cases hslots : o.slots with
      | nil =>
        rw [intentPhase_noSlots text _ o hint (by simpa using hsf) hslots]
        simpa [ctxInv] using h
      | cons a l =>
        rw [intentPhase_offer text _ o hint (by simpa using hsf)
          (by simp [hslots])]
        simp [ctxInv, hslots]
    · have hintf : o.meetingIntent = false := by simpa using hint
      rw [intentPhase_generic text _ o (by simp [hintf])]
      simpa [ctxInv] using h

theorem runTurns_inv_aux :
    ∀ turns : List (String × Oracle), ∀ c : Ctx, ctxInv c →
      ctxInv (turns.foldl (fun c p => (processMessage p.1 c p.2).1) c) := by
  intro turns
  induction turns with
  | nil =>
    intro c h
    simpa using h
  | cons p rest ih =>
    intro c h
    rw [List.foldl_cons]
    exact ih _ (processMessage_inv c p.1 p.2 h)

/-- C7: the data-model invariant — the offered-slot list is non-empty
exactly when the session is awaiting a slot selection — holds for the
freshly created session context, is preserved by every single
`process_message` turn, and therefore holds after every sequence of
processed inbound messages. -/
theorem c7_offer_invariant :
    ctxInv initialCtx ∧
      (∀ ctx text o, ctxInv ctx → ctxInv (processMessage text ctx o).1) ∧
      (∀ turns, ctxInv (runTurns turns)) := by
  refine ⟨by decide, fun ctx text o h => processMessage_inv ctx text o h,
    fun turns => ?_⟩
  rw [runTurns]
  exact runTurns_inv_aux turns initialCtx (by decide)

/-- C7 witness: the invariant is preserved across a concrete selection
turn that clears an outstanding offer. -/
theorem c7_witness :
    ctxInv (processMessage "1" ⟨[], true, [⟨0, 1800, "s"⟩]⟩
      ⟨false, [], none, "r"⟩).1 :=
  c7_offer_invariant.2.1 ⟨[], true, [⟨0, 1800, "s"⟩]⟩ "1"
    ⟨false, [], none, "r"⟩ (by decide)

/-! ## Claim C1 -/

/-- C1, counterexample to the claim as stated: a booking-gateway failure
(`create_meeting` catches its own exception and returns `None`) after a
valid slot selection does *not* leave the session state unchanged and
does *not* suppress the confirmation: `meeting_scheduling` is reset,
`available_slots` is cleared, and the confirmation reply embedding the
text `None` is sent instead of the static apology. -/
theorem c1_counterexample :
    (processMessage "1" ⟨[], true, [⟨36000, 37800, "t"⟩]⟩
        ⟨false, [], none, "g"⟩).1.meeting_scheduling = false ∧
      (processMessage "1" ⟨[], true, [⟨36000, 37800, "t"⟩]⟩
        ⟨false, [], none, "g"⟩).1.available_slots = [] ∧
      Ev.send (confirmResponse ⟨36000, 37800, "t"⟩ none) ∈
        (processMessage "1" ⟨[], true, [⟨36000, 37800, "t"⟩]⟩
          ⟨false, [], none, "g"⟩).2 := by decide

/-- C1 amended: collaborator failures are caught inside each
collaborator wrapper and surface as degraded return values, which
`process_message` then handles on its normal paths rather than by a
uniform apology-and-no-state-change rule: a booking failure (`None`)
after a valid selection still clears the offer state and sends the
confirmation embedding `None`; a classifier failure is treated as "no
intent" and leads to ordinary reply generation with unchanged state; a
slot-lookup failure is treated as no availability with unchanged state;
and a reply-generation failure sends the static apology of that wrapper
with unchanged state. -/
theorem c1_failure_modes :
    (∀ ctx text o slot, ctx.meeting_scheduling = true →
      checkIfSlotSelected text ctx.available_slots = some slot →
      o.meetLink = none →
      (processMessage text ctx o).1.meeting_scheduling = false ∧
        (processMessage text ctx o).1.available_slots = [] ∧
        Ev.send (confirmResponse slot none) ∈ (processMessage text ctx o).2) ∧
      (∀ ctx text o, ctx.meeting_scheduling = false →
        o.meetingIntent = false →
        (processMessage text ctx o).1.meeting_scheduling =
            ctx.meeting_scheduling ∧
          (processMessage text ctx o).1.available_slots =
            ctx.available_slots ∧
          Ev.send o.gptReply ∈ (processMessage text ctx o).2) ∧
      (∀ ctx text o, ctx.meeting_scheduling = false →
        o.meetingIntent = true → o.slots = [] →
        (processMessage text ctx o).1.meeting_scheduling =
            ctx.meeting_scheduling ∧
          (processMessage text ctx o).1.available_slots =
            ctx.available_slots ∧
          Ev.send noSlotsResponse ∈ (processMessage text ctx o).2) ∧
      (∀ ctx text o, ctx.meeting_scheduling = false →
        o.meetingIntent = false → o.gptReply = openaiApology →
        (processMessage text ctx o).1.meeting_scheduling =
            ctx.meeting_scheduling ∧
          (processMessage text ctx o).1.available_slots =
            ctx.available_slots ∧
          Ev.send openaiApology ∈ (processMessage text ctx o).2) := by
  refine ⟨?_, ?_, ?_, ?_⟩
  · intro ctx text o slot hs hsel hlink
    rw [processMessage_select ctx text o slot hs hsel, hlink]
    simp
  · intro ctx text o hs hintf
    rw [processMessage_idle ctx text o hs,
      intentPhase_generic text _ o (by simp [hintf])]
    simp
  · intro ctx text o hs hint hemp
    rw [processMessage_idle ctx text o hs,
      intentPhase_noSlots text _ o hint (by simp [hs]) hemp]
    simp
  · intro ctx text o hs hintf hrep
    rw [processMessage_idle ctx text o hs,
      intentPhase_generic text _ o (by simp [hintf]), hrep]
    simp

/-- C1 witness: the four degraded-value cases evaluated on concrete
turns — a failed booking after selecting slot 1, a failed classifier, a
failed slot lookup with detected intent, and a failed reply
generation. -/
theorem c1_witness :
    ((processMessage "1" ⟨[], true, [⟨36000, 37800, "t"⟩]⟩
        ⟨false, [], none, "g"⟩).1.meeting_scheduling = false ∧
      (processMessage "1" ⟨[], true, [⟨36000, 37800, "t"⟩]⟩
        ⟨false, [], none, "g"⟩).1.available_slots = [] ∧
      Ev.send (confirmResponse ⟨36000, 37800, "t"⟩ none) ∈
        (processMessage "1" ⟨[], true, [⟨36000, 37800, "t"⟩]⟩
          ⟨false, [], none, "g"⟩).2) ∧
      (Ev.send "g" ∈ (processMessage "hi" initialCtx
        ⟨false, [], none, "g"⟩).2) ∧
      (Ev.send noSlotsResponse ∈ (processMessage "hi" initialCtx
        ⟨true, [], none, "g"⟩).2) ∧
      (Ev.send openaiApology ∈ (processMessage "hi" initialCtx
        ⟨false, [], none, openaiApology⟩).2) :=
  ⟨c1_failure_modes.1 ⟨[], true, [⟨36000, 37800, "t"⟩]⟩ "1"
      ⟨false, [], none, "g"⟩ ⟨36000, 37800, "t"⟩ (by decide) (by decide) rfl,
    (c1_failure_modes.2.1 initialCtx "hi" ⟨false, [], none, "g"⟩ rfl rfl).2.2,
    (c1_failure_modes.2.2.1 initialCtx "hi" ⟨true, [], none, "g"⟩ rfl rfl
      rfl).2.2,
    (c1_failure_modes.2.2.2 initialCtx "hi" ⟨false, [], none, openaiApology⟩
      rfl rfl rfl).2.2⟩

/-! ## Claim C4 -/

/-- C4: from an idle session, an intent-positive message leads to a slot
query with horizon 5 days and duration 30 minutes; when the returned
list is non-empty the session moves to awaiting-selection storing
exactly that list (order preserved, at most 10 entries) and the numbered
offer is sent; when it is empty the session stays idle with its fields
unchanged and the no-availability reply is sent. -/
theorem c4_idle_intent (ev : List Iv) (now : Nat) (ctx : Ctx) (text : String)
    (o : Oracle) (hidle : ctx.meeting_scheduling = false)
    (hint : o.meetingIntent = true)
    (hslots : o.slots = getAvailableSlots ev now 5 30) :
    (getAvailableSlots ev now 5 30).length ≤ 10 ∧
      (getAvailableSlots ev now 5 30 ≠ [] →
        processMessage text ctx o =
          (⟨ctx.messages ++ [⟨Role.user, text⟩,
              ⟨Role.assistant, offerResponse (getAvailableSlots ev now 5 30)⟩],
             true, getAvailableSlots ev now 5 30⟩,
           [Ev.appendUser text, Ev.classify text, Ev.slotQuery,
            Ev.send (offerResponse (getAvailableSlots ev now 5 30)),
            Ev.appendAssistant
              (offerResponse (getAvailableSlots ev now 5 30))])) ∧
      (getAvailableSlots ev now 5 30 = [] →
        processMessage text ctx o =
          (⟨ctx.messages ++ [⟨Role.user, text⟩,
              ⟨Role.assistant, noSlotsResponse⟩],
             ctx.meeting_scheduling, ctx.available_slots⟩,
           [Ev.appendUser text, Ev.classify text, Ev.slotQuery,
            Ev.send noSlotsResponse, Ev.appendAssistant noSlotsResponse])) := by
  refine ⟨?_, ?_, ?_⟩
  · rw [getAvailableSlots_eq, List.length_take]
    exact Nat.min_le_left _ _
  · intro hne
    rw [processMessage_idle ctx text o hidle,
      intentPhase_offer text _ o hint (by simp [hidle])
        (by rw [hslots]; exact hne), hslots]
    simp
  · intro hemp
    rw [processMessage_idle ctx text o hidle,
      intentPhase_noSlots text _ o hint (by simp [hidle])
        (hslots.trans hemp)]
    simp

/-- C4 witness: an empty calendar at midnight of day 0 yields ten slots;
an intent-positive message on a fresh session stores exactly that list
and sends the numbered offer. -/
theorem c4_witness :
    (getAvailableSlots [] 0 5 30).length ≤ 10 ∧
      processMessage "m" initialCtx
          ⟨true, getAvailableSlots [] 0 5 30, none, "g"⟩ =
        (⟨[⟨Role.user, "m"⟩,
            ⟨Role.assistant, offerResponse (getAvailableSlots [] 0 5 30)⟩],
           true, getAvailableSlots [] 0 5 30⟩,
         [Ev.appendUser "m", Ev.classify "m", Ev.slotQuery,
          Ev.send (offerResponse (getAvailableSlots [] 0 5 30)),
          Ev.appendAssistant (offerResponse (getAvailableSlots [] 0 5 30))]) := by
  have h := c4_idle_intent [] 0 initialCtx "m"
    ⟨true, getAvailableSlots [] 0 5 30, none, "g"⟩ rfl rfl rfl
  refine ⟨h.1, ?_⟩
  have h2 := h.2.1 (by decide)
  simpa using h2

/-! ## Claim C5 -/

theorem selScan_nil (slots : List SlotR) : selScan slots [] = none := rfl

theorem selScan_cons (slots : List SlotR) (t : String) (rest : List String) :
    selScan slots (t :: rest) =
      if pyIsDigit t then
        if 0 ≤ (pyInt t : Int) - 1 ∧ (pyInt t : Int) - 1 < (slots.length : Int)
        then slots[((pyInt t : Int) - 1).toNat]?
        else selScan slots rest
      else selScan slots rest := rfl

/-- The token scan agrees with "first valid token wins": it returns the
slot indexed (1-based) by the first whitespace token that is all digits
and denotes a number between 1 and the number of offered slots. -/
theorem selScan_eq (slots : List SlotR) :
    ∀ ts, selScan slots ts =
      (ts.find? (fun t => pyIsDigit t && decide (1 ≤ pyInt t) &&
          decide (pyInt t ≤ slots.length))).bind
        (fun t => slots[pyInt t - 1]?) := by
  intro ts
  induction ts with
  | nil => rfl
  | cons t rest ih =>
    rw [selScan_cons, List.find?_cons]
    by_cases hd : pyIsDigit t
    · by_cases h1 : 1 ≤ pyInt t
      · by_cases h2 : pyInt t ≤ slots.length
        · have hp : (pyIsDigit t && decide (1 ≤ pyInt t) &&
              decide (pyInt t ≤ slots.length)) = true := by
            simp [hd, h1, h2]
          rw [if_pos hd, if_pos (by constructor <;> omega)]
          simp only [hp, Option.some_bind]
          have hidx : ((pyInt t : Int) - 1).toNat = pyInt t - 1 := by omega
          rw [hidx]
        · have hp : (pyIsDigit t && decide (1 ≤ pyInt t) &&
              decide (pyInt t ≤ slots.length)) = false := by
            simp [h2]
          rw [if_pos hd, if_neg (by omega)]
          simp only [hp]
          exact ih
      · have hp : (pyIsDigit t && decide (1 ≤ pyInt t) &&
            decide (pyInt t ≤ slots.length)) = false := by
          simp [h1]
        rw [if_pos hd, if_neg (by omega)]
        simp only [hp]
        exact ih
    · have hp : (pyIsDigit t && decide (1 ≤ pyInt t) &&
          decide (pyInt t ≤ slots.length)) = false := by
        simp [hd]
      rw [if_neg hd]
      simp only [hp]
      exact ih

/-- C5: the selection parser scans the whitespace-delimited tokens of
the message and the first token that is a positive integer `n` with
`1 ≤ n ≤ k` (k the number of offered slots) selects the slot at index
`n - 1`; non-numeric and out-of-range numeric tokens are skipped, and a
message whose numeric tokens are all `0` or `k + 1` selects nothing. -/
theorem c5_token_scan (text : String) (slots : List SlotR) :
    checkIfSlotSelected text slots =
      ((pySplit text).find? (fun t => pyIsDigit t && decide (1 ≤ pyInt t) &&
          decide (pyInt t ≤ slots.length))).bind
        (fun t => slots[pyInt t - 1]?) ∧
      ((∀ t ∈ pySplit text, pyIsDigit t = true →
          pyInt t = 0 ∨ pyInt t = slots.length + 1) →
        checkIfSlotSelected text slots = none) := by
  constructor
  · rw [checkIfSlotSelected]
    exact selScan_eq slots (pySplit text)
  · intro h
    rw [checkIfSlotSelected, selScan_eq slots (pySplit text)]
    have hnone : (pySplit text).find? (fun t => pyIsDigit t &&
        decide (1 ≤ pyInt t) && decide (pyInt t ≤ slots.length)) = none := by
      rw [List.find?_eq_none]
      intro t ht
      by_cases hd : pyIsDigit t
      · rcases h t ht hd with h0 | h0
        · simp [h0]
        · simp [h0]
      · simp [hd]
    rw [hnone, Option.none_bind]

/-- C5 witness: with three offered slots, the message "0 4" (numeric
tokens 0 and k+1 only) selects nothing, while "pick 2 or 3" selects the
second slot. -/
theorem c5_witness :
    checkIfSlotSelected "0 4"
        [⟨0, 1, "a"⟩, ⟨2, 3, "b"⟩, ⟨4, 5, "c"⟩] = none ∧
      checkIfSlotSelected "pick 2 or 3"
        [⟨0, 1, "a"⟩, ⟨2, 3, "b"⟩, ⟨4, 5, "c"⟩] = some ⟨2, 3, "b"⟩ :=
  ⟨(c5_token_scan "0 4" [⟨0, 1, "a"⟩, ⟨2, 3, "b"⟩, ⟨4, 5, "c"⟩]).2 (by decide),
    by
      have h := (c5_token_scan "pick 2 or 3"
        [⟨0, 1, "a"⟩, ⟨2, 3, "b"⟩, ⟨4, 5, "c"⟩]).1
      rw [h]
      decide⟩

end Zews
